/-
Verification of the panelizer comic-panel detection pipeline.

Shallow embedding of the geometric kernel and the post-processing stages of
the repository (src/panelizer and src/panel_flow), with theorems settling the
specification claims about them.

Modelling conventions:
* Python integers are `ℤ`; exact real-valued ratios computed by the source
  with float division are modelled as exact rationals `ℚ`.
* Euclidean lengths (`Segment.dist`, `math.sqrt`) are carried as squared
  integer lengths; every comparison the source makes between such lengths is
  reproduced by the equivalent squared comparison (documented at each use).
* Sample statistics used by the confidence scorer need a true square root, so
  that one function is modelled over `ℝ`.
-/
import Mathlib

set_option allowUnsafeReducibility true in
attribute [semireducible] Rat.add Rat.mul Rat.sub Rat.neg Rat.div Rat.inv Rat.blt

namespace Panelizer

/-! ## InternalPanel (src/panel_flow/cv/panel_internal.py)

The panel class used by the detection pipeline.  The polygon, `splittable`
flag and cached segment list carried by the Python object are omitted: none
of the operations modelled below (`area`, `overlap_panel`, `overlaps`,
`bumps_into`, `merge`, `is_small`, `remove_contained_panels`, the
`detect_panels` tail) ever consults them. -/

/-- A panel: image size, small-panel ratio, and the bounds x, y, r, b
(left, top, right, bottom).  The constructor from `xywh` stores
`r = x + w`, `b = y + h`. -/
structure InternalPanel where
  imgW : ℤ
  imgH : ℤ
  ratio : ℚ
  x : ℤ
  y : ℤ
  r : ℤ
  b : ℤ
deriving DecidableEq, Repr

namespace InternalPanel

/-- Constructor `InternalPanel(img_size, ratio, xywh=(x, y, w, h))`. -/
def mkXYWH (imgW imgH : ℤ) (ratio : ℚ) (x y w h : ℤ) : InternalPanel :=
  ⟨imgW, imgH, ratio, x, y, x + w, y + h⟩

/-- Static constructor `from_xyrb`. -/
def from_xyrb (imgW imgH : ℤ) (ratio : ℚ) (x y r b : ℤ) : InternalPanel :=
  mkXYWH imgW imgH ratio x y (r - x) (b - y)

/-- Panel width `w()`. -/
def w (p : InternalPanel) : ℤ := p.r - p.x

/-- Panel height `h()`. -/
def h (p : InternalPanel) : ℤ := p.b - p.y

/-- Panel area `area()`. -/
def area (p : InternalPanel) : ℤ := p.w * p.h

/-- Width threshold `wt() = w / 10` (exact rational for the float division). -/
def wt (p : InternalPanel) : ℚ := (p.w : ℚ) / 10

/-- Height threshold `ht() = h / 10`. -/
def ht (p : InternalPanel) : ℚ := (p.h : ℚ) / 10

/-- The source `__eq__`: all four bounds agree within the *receiver's*
thresholds.  Tolerance-based and asymmetric, so kept as a named operation
rather than Lean equality. -/
def peq (p q : InternalPanel) : Bool :=
  decide (|(p.x - q.x : ℚ)| < p.wt) && decide (|(p.y - q.y : ℚ)| < p.ht) &&
  decide (|(p.r - q.r : ℚ)| < p.wt) && decide (|(p.b - q.b : ℚ)| < p.ht)

/-- Python list membership `p in l`, which compares `item == p` with the list
item as receiver of `__eq__`. -/
def pmem (l : List InternalPanel) (p : InternalPanel) : Bool :=
  l.any (fun t => peq t p)

/-- Source `is_small(extra_ratio)`: either dimension below the image dimension times
`small_panel_ratio * extra_ratio`. -/
def is_small (p : InternalPanel) (extra : ℚ) : Bool :=
  decide ((p.w : ℚ) < p.imgW * p.ratio * extra) ||
  decide ((p.h : ℚ) < p.imgH * p.ratio * extra)

/-- Source `overlap_panel(other)`: the overlapping region, or none.  The source
builds the result through the xywh constructor with `(r - x, b - y)`. -/
def overlap_panel (p q : InternalPanel) : Option InternalPanel :=
  if p.x > q.r ∨ q.x > p.r then none
  else if p.y > q.b ∨ q.y > p.b then none
  else some (mkXYWH p.imgW p.imgH p.ratio (max p.x q.x) (max p.y q.y)
    (min p.r q.r - max p.x q.x) (min p.b q.b - max p.y q.y))

/-- Source `overlap_area(other)`. -/
def overlap_area (p q : InternalPanel) : ℤ :=
  match overlap_panel p q with
  | none => 0
  | some o => o.area

/-- Source `overlaps(other)`: overlap region covers more than 10% of the smaller
panel; degenerate zero-area pairs that intersect count as overlapping. -/
def overlaps (p q : InternalPanel) : Bool :=
  match overlap_panel p q with
  | none => false
  | some o =>
    let smallest := min p.area q.area
    if smallest = 0 then true
    else decide ((o.area : ℚ) / (smallest : ℚ) > 1 / 10)

/-- Source `bumps_into(other_panels)`: overlaps any member that is not `==` self
(the skip test calls the list element's `__eq__`). -/
def bumps_into (p : InternalPanel) (others : List InternalPanel) : Bool :=
  others.any (fun o => !(peq o p) && overlaps p o)

/-- The `possible_panels` list built by `merge(other, all_panels)`: self,
then for each direction where `other` reaches beyond self the corresponding
extensions — the left extension of self alone first, then the right, top
and bottom extensions of every candidate so far, exactly as the source's
`copy()` loops. -/
def merge_candidates (p other : InternalPanel) : List InternalPanel :=
  let l1 := if other.x < p.x then
    [p] ++ [from_xyrb p.imgW p.imgH p.ratio other.x p.y p.r p.b] else [p]
  let l2 := if other.r > p.r then
    l1 ++ l1.map (fun pp => from_xyrb p.imgW p.imgH p.ratio pp.x pp.y other.r pp.b)
    else l1
  let l3 := if other.y < p.y then
    l2 ++ l2.map (fun pp => from_xyrb p.imgW p.imgH p.ratio pp.x other.y pp.r pp.b)
    else l2
  if other.b > p.b then
    l3 ++ l3.map (fun pp => from_xyrb p.imgW p.imgH p.ratio pp.x pp.y pp.r other.b)
  else l3

/-- Source `merge(other, all_panels)`: drop the candidates that bump into the
remaining page panels; return the largest survivor (Python `max` keeps the
first maximal one) or self when none survive. -/
def merge (p other : InternalPanel) (allPanels : List InternalPanel) :
    InternalPanel :=
  match (merge_candidates p other).filter (fun c =>
    !(c.bumps_into (allPanels.filter (fun q => !(peq p q || peq other q))))) with
  | [] => p
  | c :: rest =>
    rest.foldl (fun best cand => if cand.area > best.area then cand else best) c

end InternalPanel

/-! ## Pipeline stages (src/panelizer/cv/pipeline.py) -/

open InternalPanel

/-- Source `exclude_small(panels, ratio)`: drop panels with `is_small()`. -/
def exclude_small (panels : List InternalPanel) : List InternalPanel :=
  panels.filter (fun p => !(p.is_small 1))

/-- The `to_remove` list built by `remove_contained_panels`: for each panel
`p1` (scanned by position), the first *other* panel `p2` holding at least
`threshold` of `p1`'s area is found; the container `p2` is marked when
`prefer_smaller`, else `p1` itself.  `p1 is p2` identity is position
inequality. -/
def remove_contained_to_remove (panels : List InternalPanel) (threshold : ℚ)
    (preferSmaller : Bool) : List InternalPanel :=
  panels.enum.filterMap (fun ip =>
    panels.enum.findSome? (fun jp =>
      if ip.1 = jp.1 then none
      else
        match overlap_panel ip.2 jp.2 with
        | none => none
        | some ov =>
          if (0 : ℤ) < ip.2.area ∧ (ov.area : ℚ) / (ip.2.area : ℚ) ≥ threshold then
            some (if preferSmaller then jp.2 else ip.2)
          else none))

/-- Source `remove_contained_panels(panels, threshold=0.9, prefer_smaller=True)`:
drop every panel equal (under the fuzzy `__eq__`) to a marked one. -/
def remove_contained_panels (panels : List InternalPanel) (threshold : ℚ)
    (preferSmaller : Bool) : List InternalPanel :=
  let toRemove := remove_contained_to_remove panels threshold preferSmaller
  panels.filter (fun p => !(pmem toRemove p))

/-- The `exclude_small` step followed by the full-page fallback of
`detect_panels`: when the working set is empty, one panel covering the whole
image is injected. -/
def fallback_fullpage (imgW imgH : ℤ) (ratio : ℚ)
    (panels : List InternalPanel) : List InternalPanel :=
  if (exclude_small panels).isEmpty then [mkXYWH imgW imgH ratio 0 0 imgW imgH]
  else exclude_small panels

/-- The unconditional tail of `detect_panels` in the default configuration
(splitting, grouping and expansion disabled): `exclude_small`, then the
full-page fallback when the set is empty, then `remove_contained_panels`
with threshold 0.9 and `prefer_smaller=True`. -/
def detect_panels_tail (imgW imgH : ℤ) (ratio : ℚ)
    (panels : List InternalPanel) : List InternalPanel :=
  remove_contained_panels (fallback_fullpage imgW imgH ratio panels) (9 / 10) true

/-- Whether some panel of the list has at least fraction `thr` of its area
inside another (distinct-position) panel — the situation in which
`remove_contained_panels` marks a panel for removal. -/
def has_contained_pair (panels : List InternalPanel) (thr : ℚ) : Bool :=
  panels.enum.any (fun ip =>
    panels.enum.any (fun jp =>
      ip.1 ≠ jp.1 && decide (0 < ip.2.area) &&
        decide ((overlap_area ip.2 jp.2 : ℚ) / (ip.2.area : ℚ) ≥ thr)))

/-! ## Reading order (src/panelizer/ordering.py) -/

/-- Reading direction. -/
inductive ReadingDirection where
  | ltr
  | rtl
deriving DecidableEq, Repr

/-- A bounding box `(x, y, w, h)`. -/
def BBox : Type := ℤ × ℤ × ℤ × ℤ

instance : DecidableEq BBox := inferInstanceAs (DecidableEq (ℤ × ℤ × ℤ × ℤ))

/-- The `_to_xyrb` conversion `(x, y, w, h) ↦ (x, y, x + w, y + h)`. -/
def to_xyrb (bb : BBox) : ℤ × ℤ × ℤ × ℤ :=
  (bb.1, bb.2.1, bb.1 + bb.2.2.1, bb.2.1 + bb.2.2.2)

/-- Left edge of a bbox. -/
def bbx (bb : BBox) : ℤ := (to_xyrb bb).1

/-- Top edge of a bbox. -/
def bby (bb : BBox) : ℤ := (to_xyrb bb).2.1

/-- Right edge of a bbox. -/
def bbr (bb : BBox) : ℤ := (to_xyrb bb).2.2.1

/-- Bottom edge of a bbox. -/
def bbb (bb : BBox) : ℤ := (to_xyrb bb).2.2.2

/-- Source `same_row(bbox1, bbox2)`: vertical containment, or vertical intersection
at least one third of the smaller height (trivially true when the smaller
height is zero). -/
def same_row (bbox1 bbox2 : BBox) : Bool :=
  let p := ((bby bbox1, bbb bbox1), (bby bbox2, bbb bbox2))
  let q := if p.1.1 > p.2.1 then (p.2, p.1) else p
  let y1 := q.1.1
  let b1 := q.1.2
  let y2 := q.2.1
  let b2 := q.2.2
  if y2 > b1 then false
  else if b2 < b1 then true
  else
    let iy := min b1 b2 - y2
    let mh := min (b1 - y1) (b2 - y2)
    decide (mh = 0) || decide ((iy : ℚ) / (mh : ℚ) ≥ 1 / 3)

/-- Source `same_col(bbox1, bbox2)`: the horizontal mirror of `same_row`. -/
def same_col (bbox1 bbox2 : BBox) : Bool :=
  let p := ((bbx bbox1, bbr bbox1), (bbx bbox2, bbr bbox2))
  let q := if p.1.1 > p.2.1 then (p.2, p.1) else p
  let x1 := q.1.1
  let r1 := q.1.2
  let x2 := q.2.1
  let r2 := q.2.2
  if x2 > r1 then false
  else if r2 < r1 then true
  else
    let ix := min r1 r2 - x2
    let mw := min (r1 - x1) (r2 - x2)
    decide (mw = 0) || decide ((ix : ℚ) / (mw : ℚ) ≥ 1 / 3)

/-- The `(index, bottom)` candidate list of `find_top_panel`: panels whose
bottom is at or above this panel's top and that share a column. -/
def top_candidates (idx : ℕ) (bboxes : List BBox) : List (ℕ × ℤ) :=
  bboxes.enum.filterMap (fun jp =>
    if jp.1 = idx then none
    else if bbb jp.2 ≤ bby (bboxes.getD idx (0, 0, 0, 0)) &&
        same_col (bboxes.getD idx (0, 0, 0, 0)) jp.2 then
      some (jp.1, bbb jp.2)
    else none)

/-- Source `find_top_panel(idx, bboxes)`: the candidate with the largest bottom
(Python `max` keeps the first maximal entry). -/
def find_top_panel (idx : ℕ) (bboxes : List BBox) : Option ℕ :=
  match top_candidates idx bboxes with
  | [] => none
  | c :: rest =>
    some (rest.foldl (fun best cand => if cand.2 > best.2 then cand else best) c).1

/-- Source `find_all_left_panels(idx, bboxes)`. -/
def find_all_left_panels (idx : ℕ) (bboxes : List BBox) : List ℕ :=
  bboxes.enum.filterMap (fun jp =>
    if jp.1 = idx then none
    else if bbr jp.2 ≤ bbx (bboxes.getD idx (0, 0, 0, 0)) &&
        same_row (bboxes.getD idx (0, 0, 0, 0)) jp.2 then some jp.1
    else none)

/-- Source `find_all_right_panels(idx, bboxes)`. -/
def find_all_right_panels (idx : ℕ) (bboxes : List BBox) : List ℕ :=
  bboxes.enum.filterMap (fun jp =>
    if jp.1 = idx then none
    else if bbx jp.2 ≥ bbr (bboxes.getD idx (0, 0, 0, 0)) &&
        same_row (bboxes.getD idx (0, 0, 0, 0)) jp.2 then some jp.1
    else none)

/-- The `neighbors_before` list of `order_panels`: the top panel followed by
all left panels (LTR) or all right panels (RTL). -/
def must_precede (bboxes : List BBox) (dir : ReadingDirection) (idx : ℕ) :
    List ℕ :=
  (find_top_panel idx bboxes).toList ++
    (match dir with
     | ReadingDirection.rtl => find_all_right_panels idx bboxes
     | ReadingDirection.ltr => find_all_left_panels idx bboxes)

/-- Sort key of the initial ordering: `(y, x)` for LTR, `(y, -x)` for RTL. -/
def sort_key (bboxes : List BBox) (dir : ReadingDirection) (i : ℕ) : ℤ × ℤ :=
  let bb := bboxes.getD i (0, 0, 0, 0)
  (bb.2.1, match dir with
           | ReadingDirection.ltr => bb.1
           | ReadingDirection.rtl => -bb.1)

/-- Total order realising Python's stable sort by `sort_key`: compare keys
lexicographically and break ties by the original index. -/
def key_le (bboxes : List BBox) (dir : ReadingDirection) (i j : ℕ) : Prop :=
  let ki := sort_key bboxes dir i
  let kj := sort_key bboxes dir j
  ki.1 < kj.1 ∨ (ki.1 = kj.1 ∧ (ki.2 < kj.2 ∨ (ki.2 = kj.2 ∧ i ≤ j)))

instance (bboxes : List BBox) (dir : ReadingDirection) :
    DecidableRel (key_le bboxes dir) := fun i j => by
  unfold key_le; infer_instance

/-- The initial ordering `sorted(range(n), key=...)`. -/
def initial_order (bboxes : List BBox) (dir : ReadingDirection) : List ℕ :=
  List.insertionSort (key_le bboxes dir) (List.range bboxes.length)

/-- Python `list.insert(i, x)`: insert at position `i`, appending when `i`
is past the end. -/
def pyinsert (n : ℕ) (x : α) (l : List α) : List α :=
  if n ≤ l.length then l.insertIdx n x else l ++ [x]

/-- One scan of the repair loop: find the first position whose panel has a
must-precede neighbour at a strictly later position, and move that panel to
just after the neighbour (`indices.insert(neighbor_pos, indices.pop(pos))`).
Returns `none` when the scan is clean. -/
def scan_move (bboxes : List BBox) (dir : ReadingDirection)
    (indices : List ℕ) : Option (List ℕ) :=
  (List.range indices.length).findSome? (fun pos =>
    (must_precede bboxes dir (indices.getD pos 0)).findSome? (fun nb =>
      if pos < indices.indexOf nb then
        some (pyinsert (indices.indexOf nb) (indices.getD pos 0)
          (indices.eraseIdx pos))
      else none))

/-- The repair loop, bounded by the fuel (`n²` scans in the source). -/
def repair_loop (bboxes : List BBox) (dir : ReadingDirection) :
    ℕ → List ℕ → List ℕ
  | 0, indices => indices
  | fuel + 1, indices =>
    match scan_move bboxes dir indices with
    | none => indices
    | some indices' => repair_loop bboxes dir fuel indices'

/-- Source `order_panels(bboxes, direction)`. -/
def order_panels (bboxes : List BBox)
    (dir : ReadingDirection) : List ℕ :=
  match bboxes with
  | [] => []
  | [_] => [0]
  | _ =>
    repair_loop bboxes dir (bboxes.length * bboxes.length)
      (initial_order bboxes dir)

/-- The ordering property claimed of `order_panels`: every must-precede
neighbour of the panel at each position sits at a strictly earlier
position. -/
def respects_precedence (bboxes : List BBox) (dir : ReadingDirection)
    (res : List ℕ) : Bool :=
  (List.range res.length).all (fun pos =>
    (must_precede bboxes dir (res.getD pos 0)).all (fun nb =>
      res.indexOf nb < pos))

/-! ## Detector output clamping (src/panelizer/cv/detector.py) -/

/-- Python `int()` on an exact rational: truncation toward zero. -/
def pytrunc (q : ℚ) : ℤ :=
  if q < 0 then -⌊-q⌋ else ⌊q⌋

/-- Python `round()` on an exact rational: round half to even. -/
def pyround (q : ℚ) : ℤ :=
  let f := ⌊q⌋
  if q - f < 1 / 2 then f
  else if q - f > 1 / 2 then f + 1
  else if f % 2 = 0 then f else f + 1

/-- Source `_clamp_bbox_xywh(bbox, img_w, img_h)`. -/
def clamp_bbox_xywh (bbox : ℤ × ℤ × ℤ × ℤ) (imgW imgH : ℤ) :
    ℤ × ℤ × ℤ × ℤ :=
  if imgW ≤ 0 ∨ imgH ≤ 0 then (0, 0, 0, 0)
  else
    let x := max 0 (min bbox.1 (imgW - 1))
    let y := max 0 (min bbox.2.1 (imgH - 1))
    let w := if bbox.2.2.1 ≤ 0 then 1 else bbox.2.2.1
    let h := if bbox.2.2.2 ≤ 0 then 1 else bbox.2.2.2
    (x, y, min w (imgW - x), min h (imgH - y))

/-- The `scale_bbox` helper of `CVDetector.detect`: identity at scale 1,
otherwise `int(v / scale)` per coordinate. -/
def scale_bbox (s : ℚ) (bbox : ℤ × ℤ × ℤ × ℤ) : ℤ × ℤ × ℤ × ℤ :=
  if s = 1 then bbox
  else (pytrunc (bbox.1 / s), pytrunc (bbox.2.1 / s),
        pytrunc (bbox.2.2.1 / s), pytrunc (bbox.2.2.2 / s))

/-- The bbox post-processing of `CVDetector.detect` for one panel: the image
is downscaled to `(int(W*scale), int(H*scale))`, the panel bbox is clamped
into the downscaled image, then scaled back by `scale_bbox`.  `scale = 1`
covers the no-downscale path (then the clamp happens at `(W, H)` itself). -/
def detect_output_bbox (W H : ℤ) (s : ℚ) (bbox : ℤ × ℤ × ℤ × ℤ) :
    ℤ × ℤ × ℤ × ℤ :=
  let imgW := pytrunc ((W : ℚ) * s)
  let imgH := pytrunc ((H : ℚ) * s)
  scale_bbox s (clamp_bbox_xywh bbox imgW imgH)

/-! ## Segment (src/panelizer/cv/segment.py)

Euclidean lengths are represented by their squares (`dist_sq` models
`dist()²`); each comparison against a length is reproduced by the exactly
equivalent squared comparison, derived at the definition that uses it.  The
angle test compares slopes against `tan 10°`, represented by the rational
constant `tan10` (the source compares `atan`-angles against 10 degrees; by
monotonicity of `tan` the two tests agree up to the 8-decimal accuracy of
the constant). -/

/-- A line segment between two integer points. -/
structure Segment where
  a : ℤ × ℤ
  b : ℤ × ℤ
deriving DecidableEq, Repr

namespace Segment

/-- Absolute horizontal extent `dist_x()`. -/
def dist_x (s : Segment) : ℤ := |s.b.1 - s.a.1|

/-- Absolute vertical extent `dist_y()`. -/
def dist_y (s : Segment) : ℤ := |s.b.2 - s.a.2|

/-- Squared Euclidean length, modelling `dist()²`. -/
def dist_sq (s : Segment) : ℤ := (s.b.1 - s.a.1) ^ 2 + (s.b.2 - s.a.2) ^ 2

/-- Source `left()`. -/
def left (s : Segment) : ℤ := min s.a.1 s.b.1

/-- Source `top()`. -/
def top (s : Segment) : ℤ := min s.a.2 s.b.2

/-- Source `right()`. -/
def right (s : Segment) : ℤ := max s.a.1 s.b.1

/-- Source `bottom()`. -/
def bottom (s : Segment) : ℤ := max s.a.2 s.b.2

/-- The source `__eq__`: equal as unordered pairs of endpoints. -/
def seg_eq (s t : Segment) : Bool :=
  decide ((s.a = t.a ∧ s.b = t.b) ∨ (s.a = t.b ∧ s.b = t.a))

/-- Python list membership for segments (uses `seg_eq`). -/
def smem (l : List Segment) (s : Segment) : Bool :=
  l.any (fun t => seg_eq t s)

/-- Rational stand-in for `tan 10°` (the angle threshold of
`angle_ok_with`); `tan 10° = 0.17632698…`. -/
def tan10 : ℚ := 17632698 / 100000000

/-- Source `angle_ok_with(other)`: the two `atan`-angles (measured in `[0°, 90°]`
from the absolute slopes, vertical mapped to 90°) differ by less than 10°.
Exact slope form: for finite slopes `p`, `q`, the condition
`|atan p - atan q| < 10°` is equivalent to `|p - q| < tan 10° * (1 + p*q)`;
against a vertical segment it is `slope * tan 10° > 1` (i.e. the angle
exceeds 80°).  The source's second disjunct `|angle - 180| < 10` can never
hold for angles in `[0°, 90°]`. -/
def angle_ok_with (s t : Segment) : Bool :=
  if s.dist_x = 0 then
    if t.dist_x = 0 then true
    else decide (1 < ((t.dist_y : ℚ) / (t.dist_x : ℚ)) * tan10)
  else if t.dist_x = 0 then
    decide (1 < ((s.dist_y : ℚ) / (s.dist_x : ℚ)) * tan10)
  else
    decide (|(s.dist_y : ℚ) / (s.dist_x : ℚ) - (t.dist_y : ℚ) / (t.dist_x : ℚ)| <
      tan10 * (1 + ((s.dist_y : ℚ) / (s.dist_x : ℚ)) * ((t.dist_y : ℚ) / (t.dist_x : ℚ))))

/-- Source `projected_point(p)`: orthogonal projection of `p` onto the line through
the segment, computed exactly and rounded per coordinate with Python
`round` (half to even); the endpoint `a` for zero-extent segments. -/
def projected_point (s : Segment) (p : ℤ × ℤ) : ℤ × ℤ :=
  let abx := s.b.1 - s.a.1
  let aby := s.b.2 - s.a.2
  if abx = 0 ∧ aby = 0 then s.a
  else
    let t : ℚ := ((p.1 - s.a.1) * abx + (p.2 - s.a.2) * aby : ℤ) /
      ((abx ^ 2 + aby ^ 2 : ℤ) : ℚ)
    (pyround ((s.a.1 : ℚ) + t * abx), pyround ((s.a.2 : ℚ) + t * aby))

/-- Decides `d > √M / 20` for an integer coordinate gap `d` and a squared
length `M ≥ 0` (the `gutter` of `intersect` is `max(dist, dist)·5/100 =
√M/20`): equivalently `0 < d` and `400·d² > M`. -/
def gt_gutter (d M : ℤ) : Bool :=
  decide (0 < d) && decide (M < 400 * d ^ 2)

/-- The bounding-box separation test of `intersect` (true when the segments
are farther apart than the gutter `√(max s.dist_sq t.dist_sq)/20` in some
axis). -/
def apart_check (s t : Segment) : Bool :=
  gt_gutter (t.left - s.right) (max s.dist_sq t.dist_sq) ||
    gt_gutter (s.left - t.right) (max s.dist_sq t.dist_sq) ||
    gt_gutter (t.top - s.bottom) (max s.dist_sq t.dist_sq) ||
    gt_gutter (s.top - t.bottom) (max s.dist_sq t.dist_sq)

/-- Decides `(√u + √v)/2 > √M/20` for squared distances `u`, `v` and squared
max length `M` (the perpendicular-distance rejection of `intersect`):
squaring twice, `100(u+v) + 200√(uv) > M`, i.e. `A := M - 100(u+v) < 0`, or
`A² < 40000·u·v`. -/
def mean_far (u v M : ℤ) : Bool :=
  let A := M - 100 * (u + v)
  if A < 0 then true else decide (A ^ 2 < 40000 * (u * v))

/-- Stable insertion (Python `sorted` is stable) of a point into a list
ordered by coordinate sum. -/
def insert_by_sum (x : ℤ × ℤ) : List (ℤ × ℤ) → List (ℤ × ℤ)
  | [] => [x]
  | y :: ys =>
    if y.1 + y.2 ≤ x.1 + x.2 then y :: insert_by_sum x ys else x :: y :: ys

/-- Python `sorted(dots, key=sum)`. -/
def sort_by_sum (l : List (ℤ × ℤ)) : List (ℤ × ℤ) :=
  l.foldl (fun acc x => insert_by_sum x acc) []

/-- Source `intersect(other)`: the overlapping portion of two near-parallel, close
segments, or none.  Gutter is `5% · max(len(self), len(other))`; the
rejection tests are the exact squared forms above; the result joins the two
middle points of the four endpoints sorted by coordinate sum. -/
def intersect (s t : Segment) : Option Segment :=
  let M := max s.dist_sq t.dist_sq
  if !(angle_ok_with s t) then none
  else if apart_check s t then none
  else
    let u := dist_sq ⟨t.a, projected_point s t.a⟩
    let v := dist_sq ⟨t.b, projected_point s t.b⟩
    if mean_far u v M then none
    else
      match sort_by_sum [s.a, s.b, t.a, t.b] with
      | [_, d2, d3, _] => some ⟨d2, d3⟩
      | _ => none

/-- Source `union(other)`: when the segments intersect, the segment joining the two
outer points (the four endpoints with the first occurrence of each
intersection endpoint removed). -/
def union (s t : Segment) : Option Segment :=
  match intersect s t with
  | none => none
  | some i =>
    match (([s.a, s.b, t.a, t.b].erase i.a).erase i.b) with
    | [p, q] => some ⟨p, q⟩
    | _ => none

/-- The inner loop of one `union_all` pass: the first segment of the tail
that is not in `used` and unions with `s1`, returned with the union. -/
def find_partner (s1 : Segment) (used : List Segment) :
    List Segment → Option (Segment × Segment)
  | [] => none
  | s2 :: tl =>
    if smem used s2 then find_partner s1 used tl
    else
      match union s1 s2 with
      | some s3 => some (s3, s2)
      | none => find_partner s1 used tl

/-- One pass of the `union_all` while-loop, with the accumulated `used`
list: each segment either merges with the first eligible later segment
(contributing the union and marking both used), is dropped when already in
`used`, or is kept.  The boolean is the pass's `unioned_segments` flag. -/
def union_pass_aux (used : List Segment) :
    List Segment → List Segment × Bool
  | [] => ([], false)
  | s1 :: rest =>
    match find_partner s1 used rest with
    | some (s3, s2) =>
      (s3 :: (union_pass_aux (used ++ [s1, s2]) rest).1, true)
    | none =>
      (if smem used s1 then (union_pass_aux used rest).1
       else s1 :: (union_pass_aux used rest).1,
       (union_pass_aux used rest).2)

/-- One full pass of `union_all`. -/
def union_pass (l : List Segment) : List Segment × Bool :=
  union_pass_aux [] l

/-- The `union_all` while-loop with explicit fuel (each fuel step is one
pass that reported a merge). -/
def union_all_fuel : ℕ → List Segment → List Segment
  | 0, l => l
  | fuel + 1, l =>
    match union_pass l with
    | (out, true) => union_all_fuel fuel out
    | (out, false) => out

/-- Source `union_all(segments)`: iterate passes to the fixed point.  The fuel
`length + 1` is sufficient because every merging pass strictly shrinks the
list (proved below). -/
def union_all (l : List Segment) : List Segment :=
  union_all_fuel (l.length + 1) l

end Segment

/-! ## Gutter-variance page factor (src/panelizer/cv/confidence.py)

`_compute_gutter_variance_score` divides a true standard deviation by a
mean, so this one function is modelled over `ℝ` (with `Real.sqrt`); its
branch structure is translated literally. -/

/-- Python `statistics.mean` of a list of integers. -/
noncomputable def list_mean (l : List ℤ) : ℝ := (l.sum : ℝ) / l.length

/-- Python `statistics.stdev`: square root of the sample variance (denominator
`n - 1`). -/
noncomputable def sample_stdev (l : List ℤ) : ℝ :=
  Real.sqrt ((l.map (fun g => ((g : ℝ) - list_mean l) ^ 2)).sum /
    ((l.length : ℝ) - 1))

/-- The `all_gutters` list with non-positive gutters filtered out
(`positive_gutters` in the source; `extend`-ing from the two lists is plain
concatenation). -/
def pos_gutters (gx gy : List ℤ) : List ℤ :=
  (gx ++ gy).filter (fun g => decide (0 < g))

/-- The coefficient of variation `stdev / mean` of a sample. -/
noncomputable def gutter_cv (l : List ℤ) : ℝ := sample_stdev l / list_mean l

/-- Source `_compute_gutter_variance_score(gutters_x, gutters_y)`: 0.85 with fewer
than two samples, 0.7 with fewer than two positive samples, 0.8 at zero
mean, and otherwise a score from the coefficient of variation
`cv = stdev / mean` of the positive gutters: 1.0 below 0.3, the linear ramp
`0.7 + 0.3·(0.6 - cv)/0.3` below 0.6, `max(0.4, 0.7·0.6/cv)` beyond. -/
noncomputable def compute_gutter_variance_score (gx gy : List ℤ) : ℝ :=
  if (gx ++ gy).length < 2 then 0.85
  else if (pos_gutters gx gy).length < 2 then 0.7
  else if list_mean (pos_gutters gx gy) = 0 then 0.8
  else if gutter_cv (pos_gutters gx gy) < 0.3 then 1
  else if gutter_cv (pos_gutters gx gy) < 0.6 then
    0.7 + 0.3 * (0.6 - gutter_cv (pos_gutters gx gy)) / 0.3
  else max 0.4 (0.7 * 0.6 / gutter_cv (pos_gutters gx gy))

/-- The gutter-variance factor as claimed by the spec, with the mid branch
corrected to the code's linear ramp (the claim's flat 0.7 is refuted below):
0.85 with fewer than two samples; 0.7 with fewer than two positive samples;
else by cv: 1.0 below 0.3, `0.7 + 0.3·(0.6 - cv)/0.3` below 0.6,
`max(0.4, 0.7·0.6/cv)` at or beyond 0.6.  The zero-mean branch of the code
is dead (positive samples have positive mean), and indeed absent here. -/
noncomputable def gutter_variance_spec_amended (gx gy : List ℤ) : ℝ :=
  if (gx ++ gy).length < 2 then 0.85
  else if (pos_gutters gx gy).length < 2 then 0.7
  else if gutter_cv (pos_gutters gx gy) < 0.3 then 1
  else if gutter_cv (pos_gutters gx gy) < 0.6 then
    0.7 + 0.3 * (0.6 - gutter_cv (pos_gutters gx gy)) / 0.3
  else max 0.4 (0.7 * 0.6 / gutter_cv (pos_gutters gx gy))

instance : Inhabited InternalPanel := ⟨InternalPanel.mkXYWH 0 0 0 0 0 0 0⟩

/-! ## Helper lemmas -/

/-- Coordinates of `from_xyrb`. -/
theorem from_xyrb_fields (imgW imgH : ℤ) (ratio : ℚ) (x y r b : ℤ) :
    (InternalPanel.from_xyrb imgW imgH ratio x y r b).x = x ∧
    (InternalPanel.from_xyrb imgW imgH ratio x y r b).y = y ∧
    (InternalPanel.from_xyrb imgW imgH ratio x y r b).r = r ∧
    (InternalPanel.from_xyrb imgW imgH ratio x y r b).b = b := by
  refine ⟨rfl, rfl, ?_, ?_⟩ <;>
    (simp only [InternalPanel.from_xyrb, InternalPanel.mkXYWH]; ring)

/-- Value of `pytrunc` on a nonnegative rational: its floor. -/
theorem pytrunc_of_nonneg {q : ℚ} (h : 0 ≤ q) : pytrunc q = ⌊q⌋ := by
  unfold pytrunc
  rw [if_neg (not_lt.2 h)]

/-- Value of `pytrunc` on an integer: that integer. -/
theorem pytrunc_intCast (n : ℤ) : pytrunc (n : ℚ) = n := by
  unfold pytrunc
  split_ifs with h
  · rw [← Int.cast_neg, Int.floor_intCast]; ring
  · exact Int.floor_intCast n

/-- Floors are superadditive. -/
theorem floor_add_floor_le (a b : ℚ) : ⌊a⌋ + ⌊b⌋ ≤ ⌊a + b⌋ := by
  apply Int.le_floor.2
  push_cast
  exact add_le_add (Int.floor_le a) (Int.floor_le b)

/-- Having `1 ≤ pytrunc q` forces `0 ≤ q`. -/
theorem pytrunc_pos_arg {q : ℚ} (h : 1 ≤ pytrunc q) : 0 ≤ q := by
  by_contra hneg
  push_neg at hneg
  have hfl : (0 : ℤ) ≤ ⌊-q⌋ := Int.le_floor.2 (by push_cast; linarith)
  unfold pytrunc at h
  rw [if_pos hneg] at h
  omega

/-- Truncated division of a nonnegative integer by a positive scale is
nonnegative. -/
theorem trunc_div_nonneg {s : ℚ} {a : ℤ} (hs0 : 0 < s) (ha : 0 ≤ a) :
    0 ≤ pytrunc ((a : ℚ) / s) := by
  have hq : 0 ≤ (a : ℚ) / s := div_nonneg (by exact_mod_cast ha) hs0.le
  rw [pytrunc_of_nonneg hq]
  exact Int.le_floor.2 (by exact_mod_cast hq)

/-- Truncated division of a positive integer by a scale in `(0, 1]` is at
least 1. -/
theorem trunc_div_one_le {s : ℚ} {a : ℤ} (hs0 : 0 < s) (hs1 : s ≤ 1)
    (ha : 1 ≤ a) :
    1 ≤ pytrunc ((a : ℚ) / s) := by
  have haq : (1 : ℚ) ≤ (a : ℚ) := by exact_mod_cast ha
  have hq : (1 : ℚ) ≤ (a : ℚ) / s := by
    rw [le_div_iff₀ hs0]
    linarith
  rw [pytrunc_of_nonneg (by linarith)]
  exact Int.le_floor.2 (by exact_mod_cast hq)

/-- Key rescaling bound: if `a + b` fits under `W·s` then the truncated
rescaled coordinates fit under `W`. -/
theorem trunc_div_add_le {s : ℚ} {a b W : ℤ} (hs0 : 0 < s)
    (ha : 0 ≤ a) (hb : 0 ≤ b) (hab : (a : ℚ) + b ≤ (W : ℚ) * s) :
    pytrunc ((a : ℚ) / s) + pytrunc ((b : ℚ) / s) ≤ W := by
  have hsne : s ≠ 0 := ne_of_gt hs0
  rw [pytrunc_of_nonneg (div_nonneg (by exact_mod_cast ha) hs0.le),
    pytrunc_of_nonneg (div_nonneg (by exact_mod_cast hb) hs0.le)]
  have h1 : ⌊(a : ℚ) / s⌋ + ⌊(b : ℚ) / s⌋ ≤ ⌊(a : ℚ) / s + (b : ℚ) / s⌋ :=
    floor_add_floor_le _ _
  have h2 : (a : ℚ) / s + (b : ℚ) / s ≤ (W : ℚ) := by
    rw [div_add_div_same, div_le_iff₀ hs0]
    linarith
  calc ⌊(a : ℚ) / s⌋ + ⌊(b : ℚ) / s⌋ ≤ ⌊(a : ℚ) / s + (b : ℚ) / s⌋ := h1
    _ ≤ ⌊(W : ℚ)⌋ := Int.floor_le_floor h2
    _ = W := Int.floor_intCast W

theorem mem_ite_append {α : Type} (cond : Prop) [Decidable cond]
    (l l2 : List α) (x : α) (hx : x ∈ l) :
    x ∈ (if cond then l ++ l2 else l) := by
  split_ifs
  · exact List.mem_append_left _ hx
  · exact hx

theorem forall_ite_append_map {P : InternalPanel → Prop} (cond : Prop)
    [Decidable cond] (l : List InternalPanel)
    (f : InternalPanel → InternalPanel)
    (hl : ∀ c ∈ l, P c) (hf : cond → ∀ c, P c → P (f c)) :
    ∀ c ∈ (if cond then l ++ l.map f else l), P c := by
  split_ifs with h
  · intro c hc
    rcases List.mem_append.mp hc with hc | hc
    · exact hl c hc
    · obtain ⟨d, hd, rfl⟩ := List.mem_map.mp hc
      exact hf h d (hl d hd)
  · exact hl

theorem merge_candidates_self_mem (p q : InternalPanel) :
    p ∈ merge_candidates p q := by
  unfold merge_candidates
  apply mem_ite_append
  apply mem_ite_append
  apply mem_ite_append
  apply mem_ite_append
  exact List.mem_singleton_self p

theorem merge_candidates_bounds (p q : InternalPanel) :
    ∀ c ∈ merge_candidates p q,
      c.x ≤ p.x ∧ c.y ≤ p.y ∧ p.r ≤ c.r ∧ p.b ≤ c.b := by
  unfold merge_candidates
  refine forall_ite_append_map _ _ _
    (forall_ite_append_map _ _ _ (forall_ite_append_map _ _ _ ?_ ?_) ?_) ?_
  · -- stage 1
    split_ifs with h1
    · intro c hc
      rcases List.mem_append.mp hc with hc | hc
      · rw [List.mem_singleton.mp hc]
        exact ⟨le_refl _, le_refl _, le_refl _, le_refl _⟩
      · rw [List.mem_singleton.mp hc]
        obtain ⟨e1, e2, e3, e4⟩ := from_xyrb_fields p.imgW p.imgH p.ratio q.x p.y p.r p.b
        rw [e1, e2, e3, e4]
        exact ⟨le_of_lt h1, le_refl _, le_refl _, le_refl _⟩
    · intro c hc
      rw [List.mem_singleton.mp hc]
      exact ⟨le_refl _, le_refl _, le_refl _, le_refl _⟩
  · -- stage 2: extend right to q.r
    intro h c ⟨b1, b2, b3, b4⟩
    obtain ⟨e1, e2, e3, e4⟩ := from_xyrb_fields p.imgW p.imgH p.ratio c.x c.y q.r c.b
    rw [e1, e2, e3, e4]
    exact ⟨b1, b2, le_of_lt h, b4⟩
  · -- stage 3: extend top to q.y
    intro h c ⟨b1, b2, b3, b4⟩
    obtain ⟨e1, e2, e3, e4⟩ := from_xyrb_fields p.imgW p.imgH p.ratio c.x q.y c.r c.b
    rw [e1, e2, e3, e4]
    exact ⟨b1, le_of_lt h, b3, b4⟩
  · -- stage 4: extend bottom to q.b
    intro h c ⟨b1, b2, b3, b4⟩
    obtain ⟨e1, e2, e3, e4⟩ := from_xyrb_fields p.imgW p.imgH p.ratio c.x c.y c.r q.b
    rw [e1, e2, e3, e4]
    exact ⟨b1, b2, b3, le_of_lt h⟩

theorem pick_largest_spec (c : InternalPanel) (rest : List InternalPanel) :
    (rest.foldl (fun best cand => if cand.area > best.area then cand else best) c)
      ∈ c :: rest ∧
    ∀ x ∈ c :: rest, x.area ≤
      (rest.foldl (fun best cand => if cand.area > best.area then cand else best) c).area := by
  induction rest generalizing c with
  | nil => simp
  | cons d ds ih =>
    simp only [List.foldl_cons]
    obtain ⟨ihm, ihge⟩ := ih (if d.area > c.area then d else c)
    constructor
    · rcases List.mem_cons.mp ihm with he | he
      · rw [he]
        split_ifs
        · exact List.mem_cons_of_mem _ (List.mem_cons_self _ _)
        · exact List.mem_cons_self _ _
      · exact List.mem_cons_of_mem _ (List.mem_cons_of_mem _ he)
    · intro x hx
      have hhead := ihge _ (List.mem_cons_self _ _)
      rcases List.mem_cons.mp hx with rfl | hx
      · refine le_trans ?_ hhead
        split_ifs with hd
        · exact le_of_lt hd
        · exact le_refl _
      · rcases List.mem_cons.mp hx with rfl | hx
        · refine le_trans ?_ hhead
          split_ifs with hd
          · exact le_refl _
          · exact le_of_not_lt hd
        · exact ihge _ (List.mem_cons_of_mem _ hx)


/-! ## Claims C10 and C4: detector output clamping -/

/-- C10: with a non-positive image width or height, `_clamp_bbox_xywh`
returns exactly `(0, 0, 0, 0)` — the degenerate-image exception to the
`w ≥ 1, h ≥ 1` guarantee. -/
theorem clamp_bbox_degenerate_image (bbox : ℤ × ℤ × ℤ × ℤ) (imgW imgH : ℤ)
    (h : imgW ≤ 0 ∨ imgH ≤ 0) :
    clamp_bbox_xywh bbox imgW imgH = (0, 0, 0, 0) := by
  unfold clamp_bbox_xywh
  rw [if_pos h]

/-- Witness for `clamp_bbox_degenerate_image` at a concrete degenerate
image. -/
theorem clamp_bbox_degenerate_image_witness :
    ((0 : ℤ) ≤ 0 ∨ (20 : ℤ) ≤ 0) ∧
      clamp_bbox_xywh (5, 5, 10, 10) 0 20 = (0, 0, 0, 0) :=
  ⟨Or.inl le_rfl, clamp_bbox_degenerate_image (5, 5, 10, 10) 0 20 (Or.inl le_rfl)⟩

/-- The clamp keeps bboxes inside a positive image with positive extents. -/
theorem clamp_bbox_spec (bbox : ℤ × ℤ × ℤ × ℤ) (imgW imgH : ℤ)
    (hw : 1 ≤ imgW) (hh : 1 ≤ imgH) :
    0 ≤ (clamp_bbox_xywh bbox imgW imgH).1 ∧
    0 ≤ (clamp_bbox_xywh bbox imgW imgH).2.1 ∧
    1 ≤ (clamp_bbox_xywh bbox imgW imgH).2.2.1 ∧
    1 ≤ (clamp_bbox_xywh bbox imgW imgH).2.2.2 ∧
    (clamp_bbox_xywh bbox imgW imgH).1 + (clamp_bbox_xywh bbox imgW imgH).2.2.1 ≤ imgW ∧
    (clamp_bbox_xywh bbox imgW imgH).2.1 + (clamp_bbox_xywh bbox imgW imgH).2.2.2 ≤ imgH := by
  unfold clamp_bbox_xywh
  rw [if_neg (by omega)]
  simp only
  split_ifs <;> refine ⟨?_, ?_, ?_, ?_, ?_, ?_⟩ <;> omega

/-- C4: every bbox produced by the clamp-then-rescale output path of
`CVDetector.detect` lies inside the original `W × H` image with positive
extents, for any scale `0 < s ≤ 1` whose downscaled image still has
positive dimensions (executions reaching the output stage always do: the
resize rejects a zero target size). -/
theorem detect_output_bbox_in_image (W H x y w h : ℤ) (s : ℚ)
    (hs0 : 0 < s) (hs1 : s ≤ 1)
    (hW : 1 ≤ pytrunc ((W : ℚ) * s)) (hH : 1 ≤ pytrunc ((H : ℚ) * s)) :
    0 ≤ (detect_output_bbox W H s (x, y, w, h)).1 ∧
    0 ≤ (detect_output_bbox W H s (x, y, w, h)).2.1 ∧
    1 ≤ (detect_output_bbox W H s (x, y, w, h)).2.2.1 ∧
    1 ≤ (detect_output_bbox W H s (x, y, w, h)).2.2.2 ∧
    (detect_output_bbox W H s (x, y, w, h)).1 +
      (detect_output_bbox W H s (x, y, w, h)).2.2.1 ≤ W ∧
    (detect_output_bbox W H s (x, y, w, h)).2.1 +
      (detect_output_bbox W H s (x, y, w, h)).2.2.2 ≤ H := by
  have hclamp := clamp_bbox_spec (x, y, w, h)
    (pytrunc ((W : ℚ) * s)) (pytrunc ((H : ℚ) * s)) hW hH
  set c := clamp_bbox_xywh (x, y, w, h) (pytrunc ((W : ℚ) * s))
    (pytrunc ((H : ℚ) * s)) with hc
  obtain ⟨h1, h2, h3, h4, h5, h6⟩ := hclamp
  simp only [detect_output_bbox]
  rw [← hc]
  by_cases hone : s = 1
  · subst hone
    have eW : pytrunc ((W : ℚ) * 1) = W := by rw [mul_one, pytrunc_intCast]
    have eH : pytrunc ((H : ℚ) * 1) = H := by rw [mul_one, pytrunc_intCast]
    unfold scale_bbox
    rw [if_pos rfl]
    rw [eW] at h5
    rw [eH] at h6
    exact ⟨h1, h2, h3, h4, h5, h6⟩
  · -- general downscale path: every coordinate is divided by s and floored
    have hsne : s ≠ 0 := ne_of_gt hs0
    have hWS : 0 ≤ (W : ℚ) * s := pytrunc_pos_arg hW
    have hHS : 0 ≤ (H : ℚ) * s := pytrunc_pos_arg hH
    have hWfl : pytrunc ((W : ℚ) * s) = ⌊(W : ℚ) * s⌋ := pytrunc_of_nonneg hWS
    have hHfl : pytrunc ((H : ℚ) * s) = ⌊(H : ℚ) * s⌋ := pytrunc_of_nonneg hHS
    have hsumW : (c.1 : ℚ) + c.2.2.1 ≤ (W : ℚ) * s := by
      have : ((c.1 + c.2.2.1 : ℤ) : ℚ) ≤ ((⌊(W : ℚ) * s⌋ : ℤ) : ℚ) := by
        exact_mod_cast (hWfl ▸ h5)
      calc (c.1 : ℚ) + c.2.2.1 = ((c.1 + c.2.2.1 : ℤ) : ℚ) := by push_cast; ring
        _ ≤ ((⌊(W : ℚ) * s⌋ : ℤ) : ℚ) := this
        _ ≤ (W : ℚ) * s := Int.floor_le _
    have hsumH : (c.2.1 : ℚ) + c.2.2.2 ≤ (H : ℚ) * s := by
      have : ((c.2.1 + c.2.2.2 : ℤ) : ℚ) ≤ ((⌊(H : ℚ) * s⌋ : ℤ) : ℚ) := by
        exact_mod_cast (hHfl ▸ h6)
      calc (c.2.1 : ℚ) + c.2.2.2 = ((c.2.1 + c.2.2.2 : ℤ) : ℚ) := by push_cast; ring
        _ ≤ ((⌊(H : ℚ) * s⌋ : ℤ) : ℚ) := this
        _ ≤ (H : ℚ) * s := Int.floor_le _
    unfold scale_bbox
    rw [if_neg hone]
    refine ⟨trunc_div_nonneg hs0 h1, trunc_div_nonneg hs0 h2,
      trunc_div_one_le hs0 hs1 h3, trunc_div_one_le hs0 hs1 h4,
      trunc_div_add_le hs0 h1 (by omega) hsumW,
      trunc_div_add_le hs0 h2 (by omega) hsumH⟩

/-- Witness for `detect_output_bbox_in_image`: a 1000×500 image downscaled
by 1/2, with an out-of-range degenerate candidate box. -/
theorem detect_output_bbox_in_image_witness :
    ((0 : ℚ) < 1 / 2 ∧ (1 / 2 : ℚ) ≤ 1 ∧
      1 ≤ pytrunc (((1000 : ℤ) : ℚ) * (1 / 2)) ∧
      1 ≤ pytrunc (((500 : ℤ) : ℚ) * (1 / 2))) ∧
    (0 ≤ (detect_output_bbox 1000 500 (1 / 2) (999, -5, 0, 700)).1 ∧
      0 ≤ (detect_output_bbox 1000 500 (1 / 2) (999, -5, 0, 700)).2.1 ∧
      1 ≤ (detect_output_bbox 1000 500 (1 / 2) (999, -5, 0, 700)).2.2.1 ∧
      1 ≤ (detect_output_bbox 1000 500 (1 / 2) (999, -5, 0, 700)).2.2.2 ∧
      (detect_output_bbox 1000 500 (1 / 2) (999, -5, 0, 700)).1 +
        (detect_output_bbox 1000 500 (1 / 2) (999, -5, 0, 700)).2.2.1 ≤ 1000 ∧
      (detect_output_bbox 1000 500 (1 / 2) (999, -5, 0, 700)).2.1 +
        (detect_output_bbox 1000 500 (1 / 2) (999, -5, 0, 700)).2.2.2 ≤ 500) :=
  ⟨⟨by decide, by decide, by decide, by decide⟩,
    detect_output_bbox_in_image 1000 500 999 (-5) 0 700 (1 / 2)
      (by decide) (by decide) (by decide) (by decide)⟩

/-! ## Claim C7: the two-bbox ordering scenario -/

/-- C7: on the bboxes `[(300,100,200,200), (50,100,200,200)]`, `order_panels`
returns `[1, 0]` under LTR and `[0, 1]` under RTL. -/
theorem order_panels_spec_S4 :
    order_panels [((300 : ℤ), (100 : ℤ), (200 : ℤ), (200 : ℤ)), (50, 100, 200, 200)]
      ReadingDirection.ltr = [1, 0] ∧
    order_panels [((300 : ℤ), (100 : ℤ), (200 : ℤ), (200 : ℤ)), (50, 100, 200, 200)]
      ReadingDirection.rtl = [0, 1] :=
  ⟨by decide, by decide⟩

/-! ## Claim C1: the pipeline can return an empty panel list -/

/-- C1 counterexample: two coincident full-page panels survive the fallback
stage (the set is non-empty there), yet `remove_contained_panels` marks each
as the container of the other and the pipeline tail returns the empty
list. -/
theorem detect_panels_tail_empty_counterexample :
    fallback_fullpage 100 100 (1 / 10)
      [InternalPanel.mkXYWH 100 100 (1 / 10) 0 0 100 100,
        InternalPanel.mkXYWH 100 100 (1 / 10) 0 0 100 100] =
      [InternalPanel.mkXYWH 100 100 (1 / 10) 0 0 100 100,
        InternalPanel.mkXYWH 100 100 (1 / 10) 0 0 100 100] ∧
    detect_panels_tail 100 100 (1 / 10)
      [InternalPanel.mkXYWH 100 100 (1 / 10) 0 0 100 100,
        InternalPanel.mkXYWH 100 100 (1 / 10) 0 0 100 100] = [] :=
  ⟨by decide, by decide⟩

/-- C1 (amended): the working set is non-empty right after the fallback
stage, and the pipeline tail returns a non-empty list whenever no panel of
the post-fallback set has ≥ 90% of its area inside another panel (the final
remove-contained stage, which runs after the fallback, then removes
nothing). -/
theorem detect_panels_tail_ne_nil (imgW imgH : ℤ) (ratio : ℚ)
    (panels : List InternalPanel)
    (h : has_contained_pair (fallback_fullpage imgW imgH ratio panels)
      (9 / 10) = false) :
    detect_panels_tail imgW imgH ratio panels ≠ [] := by
  have hS : fallback_fullpage imgW imgH ratio panels ≠ [] := by
    unfold fallback_fullpage
    split
    · exact List.cons_ne_nil _ _
    · next hne =>
      intro hnil
      rw [hnil] at hne
      exact hne List.isEmpty_nil
  unfold has_contained_pair at h
  simp only [List.any_eq_false, Bool.and_eq_true, not_and, decide_eq_true_eq,
    ne_eq, Bool.not_eq_true] at h
  have hrem : remove_contained_to_remove
      (fallback_fullpage imgW imgH ratio panels) (9 / 10) true = [] := by
    unfold remove_contained_to_remove
    rw [List.filterMap_eq_nil_iff]
    intro ip hip
    rw [List.findSome?_eq_none_iff]
    intro jp hjp
    by_cases hij : ip.1 = jp.1
    · rw [if_pos hij]
    · rw [if_neg hij]
      have hfalse : ¬ ((0 : ℤ) < ip.2.area ∧
          (overlap_area ip.2 jp.2 : ℚ) / (ip.2.area : ℚ) ≥ 9 / 10) := by
        intro ⟨ha, hb⟩
        exact h ip hip jp hjp ⟨hij, ha⟩ hb
      cases hov : overlap_panel ip.2 jp.2 with
      | none => rfl
      | some ov =>
        dsimp only
        rw [if_neg]
        intro ⟨ha, hb⟩
        apply hfalse
        refine ⟨ha, ?_⟩
        unfold overlap_area
        rw [hov]
        exact hb
  unfold detect_panels_tail remove_contained_panels
  rw [hrem]
  simp only [pmem, List.any_nil, Bool.not_false, List.filter_true]
  exact hS

/-- Witness for `detect_panels_tail_ne_nil`: a single full-size panel. -/
theorem detect_panels_tail_ne_nil_witness :
    has_contained_pair (fallback_fullpage 100 100 (1 / 10)
      [InternalPanel.mkXYWH 100 100 (1 / 10) 0 0 100 100]) (9 / 10) = false ∧
    detect_panels_tail 100 100 (1 / 10)
      [InternalPanel.mkXYWH 100 100 (1 / 10) 0 0 100 100] ≠ [] :=
  ⟨by decide, detect_panels_tail_ne_nil 100 100 (1 / 10) _ (by decide)⟩

/-! ## Claim C2: remove-contained invariant -/

/-- C2 counterexample, refuting both halves of the claim.  First: the 10×10
panel at (10,10) is ≥ 90% contained in both the 20×20 panel and the 100×100
panel; the scan drops only its first container, so the result still holds a
pair with full containment.  Second: for the 18×18 panel at (1,1) inside
the 20×20 panel only the container is marked, but the final filter drops
every panel fuzzily `__eq__`-equal to a marked one, so the fully contained
18×18 panel (≥ 90% of its area inside the other) is dropped as well — the
dropped panel is not always the container. -/
theorem remove_contained_counterexample :
    remove_contained_panels
      [InternalPanel.mkXYWH 200 200 (1 / 10) 10 10 10 10,
        InternalPanel.mkXYWH 200 200 (1 / 10) 0 0 20 20,
        InternalPanel.mkXYWH 200 200 (1 / 10) 8 8 100 100] (9 / 10) true =
      [InternalPanel.mkXYWH 200 200 (1 / 10) 10 10 10 10,
        InternalPanel.mkXYWH 200 200 (1 / 10) 8 8 100 100] ∧
    (0 : ℤ) < (InternalPanel.mkXYWH 200 200 (1 / 10) 10 10 10 10).area ∧
    (overlap_area (InternalPanel.mkXYWH 200 200 (1 / 10) 10 10 10 10)
        (InternalPanel.mkXYWH 200 200 (1 / 10) 8 8 100 100) : ℚ) /
      ((InternalPanel.mkXYWH 200 200 (1 / 10) 10 10 10 10).area : ℚ) ≥ 9 / 10 ∧
    remove_contained_to_remove
      [InternalPanel.mkXYWH 200 200 (1 / 10) 1 1 18 18,
        InternalPanel.mkXYWH 200 200 (1 / 10) 0 0 20 20] (9 / 10) true =
      [InternalPanel.mkXYWH 200 200 (1 / 10) 0 0 20 20] ∧
    remove_contained_panels
      [InternalPanel.mkXYWH 200 200 (1 / 10) 1 1 18 18,
        InternalPanel.mkXYWH 200 200 (1 / 10) 0 0 20 20] (9 / 10) true = [] ∧
    (overlap_area (InternalPanel.mkXYWH 200 200 (1 / 10) 1 1 18 18)
        (InternalPanel.mkXYWH 200 200 (1 / 10) 0 0 20 20) : ℚ) /
      ((InternalPanel.mkXYWH 200 200 (1 / 10) 1 1 18 18).area : ℚ) ≥ 9 / 10 :=
  ⟨by decide, by decide, by decide, by decide, by decide, by decide⟩

/-- With `prefer_smaller = True` every panel the scan marks for removal
(every member of `to_remove`) is the container of some other panel of the
list: it holds at least the threshold fraction of that panel's (positive)
area. -/
theorem to_remove_mem_is_container (panels : List InternalPanel)
    (thr : ℚ) (q : InternalPanel)
    (h : q ∈ remove_contained_to_remove panels thr true) :
    ∃ i j : ℕ, i < panels.length ∧ j < panels.length ∧ i ≠ j ∧
      q = panels.getD j default ∧ 0 < (panels.getD i default).area ∧
      (overlap_area (panels.getD i default) q : ℚ) /
        ((panels.getD i default).area : ℚ) ≥ thr := by
  unfold remove_contained_to_remove at h
  rw [List.mem_filterMap] at h
  obtain ⟨⟨i, p⟩, hip, hf⟩ := h
  obtain ⟨⟨j, pj⟩, hjp, hg⟩ := List.exists_of_findSome?_eq_some hf
  obtain ⟨hilt, hieq⟩ := List.mem_enum hip
  obtain ⟨hjlt, hjeq⟩ := List.mem_enum hjp
  simp only at hg
  by_cases hij : i = j
  · rw [if_pos hij] at hg
    exact absurd hg (by simp)
  · rw [if_neg hij] at hg
    cases hov : overlap_panel p pj with
    | none =>
      rw [hov] at hg
      exact absurd hg (by simp)
    | some ov =>
      rw [hov] at hg
      dsimp only at hg
      by_cases hcond : (0 : ℤ) < p.area ∧ (ov.area : ℚ) / (p.area : ℚ) ≥ thr
      · rw [if_pos hcond] at hg
        have hq : pj = q := by
          injection hg
        refine ⟨i, j, hilt, hjlt, hij, ?_, ?_, ?_⟩
        · rw [List.getD_eq_getElem _ _ hjlt, ← hjeq]
          exact hq.symm
        · rw [List.getD_eq_getElem _ _ hilt, ← hieq]
          exact hcond.1
        · rw [List.getD_eq_getElem _ _ hilt, ← hieq, ← hq]
          have harea : overlap_area p pj = ov.area := by
            unfold overlap_area
            rw [hov]
          rw [harea]
          exact hcond.2
      · rw [if_neg hcond] at hg
        exact absurd hg (by simp)

/-- C2 (amended): with `prefer_smaller = True` every panel the scan marks
for removal is a container of some other panel, and every panel the pass
actually drops is fuzzily `__eq__`-equal (within the marked panel's 10%
bounds tolerance) to such a marked container — so a contained panel nearly
coinciding with its container is dropped along with it, and since only the
first-listed container of each contained panel is marked, a remaining panel
may still have ≥ 90% of its area inside another remaining panel. -/
theorem remove_contained_dropped_near_container (panels : List InternalPanel)
    (thr : ℚ) (p : InternalPanel) (hp : p ∈ panels)
    (hdrop : p ∉ remove_contained_panels panels thr true) :
    ∃ t ∈ remove_contained_to_remove panels thr true, peq t p = true ∧
      ∃ i j : ℕ, i < panels.length ∧ j < panels.length ∧ i ≠ j ∧
        t = panels.getD j default ∧ 0 < (panels.getD i default).area ∧
        (overlap_area (panels.getD i default) t : ℚ) /
          ((panels.getD i default).area : ℚ) ≥ thr := by
  have hpm : pmem (remove_contained_to_remove panels thr true) p = true := by
    by_contra hfalse
    apply hdrop
    unfold remove_contained_panels
    rw [List.mem_filter]
    refine ⟨hp, ?_⟩
    rw [Bool.not_eq_true] at hfalse
    rw [hfalse]
    rfl
  unfold pmem at hpm
  rw [List.any_eq_true] at hpm
  obtain ⟨t, htmem, htpeq⟩ := hpm
  exact ⟨t, htmem, htpeq, to_remove_mem_is_container panels thr t htmem⟩

/-- Witness for `remove_contained_dropped_near_container`: the fully
contained 18×18 panel is dropped; the marked 20×20 container it fuzzily
equals testifies. -/
theorem remove_contained_dropped_near_container_witness :
    (InternalPanel.mkXYWH 200 200 (1 / 10) 1 1 18 18) ∈
      ([InternalPanel.mkXYWH 200 200 (1 / 10) 1 1 18 18,
        InternalPanel.mkXYWH 200 200 (1 / 10) 0 0 20 20] :
        List InternalPanel) ∧
    (InternalPanel.mkXYWH 200 200 (1 / 10) 1 1 18 18) ∉
      remove_contained_panels
        [InternalPanel.mkXYWH 200 200 (1 / 10) 1 1 18 18,
          InternalPanel.mkXYWH 200 200 (1 / 10) 0 0 20 20] (9 / 10) true ∧
    (∃ t ∈ remove_contained_to_remove
        [InternalPanel.mkXYWH 200 200 (1 / 10) 1 1 18 18,
          InternalPanel.mkXYWH 200 200 (1 / 10) 0 0 20 20] (9 / 10) true,
      peq t (InternalPanel.mkXYWH 200 200 (1 / 10) 1 1 18 18) = true ∧
      ∃ i j : ℕ,
        i < ([InternalPanel.mkXYWH 200 200 (1 / 10) 1 1 18 18,
          InternalPanel.mkXYWH 200 200 (1 / 10) 0 0 20 20] :
          List InternalPanel).length ∧
        j < ([InternalPanel.mkXYWH 200 200 (1 / 10) 1 1 18 18,
          InternalPanel.mkXYWH 200 200 (1 / 10) 0 0 20 20] :
          List InternalPanel).length ∧
        i ≠ j ∧
        t = ([InternalPanel.mkXYWH 200 200 (1 / 10) 1 1 18 18,
          InternalPanel.mkXYWH 200 200 (1 / 10) 0 0 20 20] :
          List InternalPanel).getD j default ∧
        0 < (([InternalPanel.mkXYWH 200 200 (1 / 10) 1 1 18 18,
          InternalPanel.mkXYWH 200 200 (1 / 10) 0 0 20 20] :
          List InternalPanel).getD i default).area ∧
        (overlap_area (([InternalPanel.mkXYWH 200 200 (1 / 10) 1 1 18 18,
          InternalPanel.mkXYWH 200 200 (1 / 10) 0 0 20 20] :
          List InternalPanel).getD i default) t : ℚ) /
          ((([InternalPanel.mkXYWH 200 200 (1 / 10) 1 1 18 18,
          InternalPanel.mkXYWH 200 200 (1 / 10) 0 0 20 20] :
          List InternalPanel).getD i default).area : ℚ) ≥ 9 / 10) :=
  ⟨by decide, by decide,
    remove_contained_dropped_near_container _ _ _ (by decide) (by decide)⟩

/-! ## Claim C8: merge against an empty page never shrinks -/

/-- C8: for every pair of panels, `merge(other, [])` returns a panel whose
rectangle contains the receiver's rectangle and whose area is at least the
receiver's. -/
theorem merge_empty_never_shrinks (p q : InternalPanel) :
    (merge p q []).x ≤ p.x ∧ (merge p q []).y ≤ p.y ∧
    p.r ≤ (merge p q []).r ∧ p.b ≤ (merge p q []).b ∧
    p.area ≤ (merge p q []).area := by
  have hfilter : (merge_candidates p q).filter
      (fun c => !(c.bumps_into (([] : List InternalPanel).filter
        (fun o => !(peq p o || peq q o))))) = merge_candidates p q :=
    List.filter_eq_self.mpr (fun a _ => rfl)
  have hmerge : merge p q [] =
      match merge_candidates p q with
      | [] => p
      | c :: rest =>
        rest.foldl (fun best cand => if cand.area > best.area then cand else best) c := by
    unfold merge
    rw [hfilter]
  have hself := merge_candidates_self_mem p q
  have hbounds := merge_candidates_bounds p q
  rw [hmerge]
  cases hcand : merge_candidates p q with
  | nil => rw [hcand] at hself; exact absurd hself (List.not_mem_nil p)
  | cons c rest =>
    rw [hcand] at hself hbounds
    obtain ⟨hm, hge⟩ := pick_largest_spec c rest
    obtain ⟨b1, b2, b3, b4⟩ := hbounds _ hm
    exact ⟨b1, b2, b3, b4, hge p hself⟩

/-! ## Claim C5: Segment.intersect commutativity -/

/-- Swapping the first with the second and the third with the fourth
disjunct of a four-way or. -/
theorem or4_swap (a b c d : Bool) : (a || b || c || d) = (b || a || d || c) := by
  cases a <;> cases b <;> cases c <;> cases d <;> rfl

/-- C5 counterexample: `intersect` is not commutative.  For the short
horizontal segment s = ((0,0),(10,0)) and the long slightly tilted segment
t = ((-100,-17),(100,17)), `s.intersect(t)` is rejected by the
perpendicular-distance test (t's endpoints are 17 px from s's line, beyond
the gutter √41156/20 ≈ 10.14), while `t.intersect(s)` accepts (s's
endpoints are within 2 px of t's line) and returns a segment. -/
theorem intersect_not_commutative_counterexample :
    Segment.intersect ⟨(0, 0), (10, 0)⟩ ⟨(-100, -17), (100, 17)⟩ = none ∧
    Segment.intersect ⟨(-100, -17), (100, 17)⟩ ⟨(0, 0), (10, 0)⟩ =
      some ⟨(0, 0), (10, 0)⟩ :=
  ⟨by decide, by decide⟩

/-- C5 (amended): the angle test and the bounding-box separation test of
`intersect` (including the shared gutter) are symmetric in the two
segments; the non-commutativity comes only from the perpendicular-distance
test, which projects onto the receiver's line alone. -/
theorem intersect_checks_symmetric (s t : Segment) :
    Segment.angle_ok_with s t = Segment.angle_ok_with t s ∧
    Segment.apart_check s t = Segment.apart_check t s := by
  constructor
  · unfold Segment.angle_ok_with
    by_cases h1 : Segment.dist_x s = 0 <;> by_cases h2 : Segment.dist_x t = 0
    · rw [if_pos h1, if_pos h2, if_pos h2, if_pos h1]
    · rw [if_pos h1, if_neg h2, if_neg h2, if_pos h1]
    · rw [if_neg h1, if_pos h2, if_pos h2, if_neg h1]
    · rw [if_neg h1, if_neg h2, if_neg h2, if_neg h1]
      rw [decide_eq_decide, abs_sub_comm,
        mul_comm ((Segment.dist_y s : ℚ) / (Segment.dist_x s : ℚ))
          ((Segment.dist_y t : ℚ) / (Segment.dist_x t : ℚ))]
  · unfold Segment.apart_check
    rw [max_comm]
    exact or4_swap _ _ _ _

/-! ## Claim C9: union_all terminates at its merging fixed point -/

namespace Segment

theorem seg_eq_refl (s : Segment) : seg_eq s s = true := by
  simp [seg_eq]

theorem smem_append_pair (used : List Segment) (a s : Segment) :
    smem (used ++ [a, s]) s = true := by
  simp [smem, List.any_append, seg_eq_refl]

theorem find_partner_some {s1 : Segment} {used l : List Segment}
    {pr : Segment × Segment} (h : find_partner s1 used l = some pr) :
    pr.2 ∈ l ∧ union s1 pr.2 = some pr.1 := by
  induction l with
  | nil => simp [find_partner] at h
  | cons s2 tl ih =>
    simp only [find_partner] at h
    by_cases hm : smem used s2
    · rw [if_pos hm] at h
      obtain ⟨hmem, hu⟩ := ih h
      exact ⟨List.mem_cons_of_mem _ hmem, hu⟩
    · rw [if_neg hm] at h
      cases hu : union s1 s2 with
      | some s3 =>
        rw [hu] at h
        obtain rfl : (s3, s2) = pr := by injection h
        exact ⟨List.mem_cons_self _ _, hu⟩
      | none =>
        rw [hu] at h
        obtain ⟨hmem, hu2⟩ := ih h
        exact ⟨List.mem_cons_of_mem _ hmem, hu2⟩

theorem find_partner_none {s1 : Segment} {used l : List Segment}
    (h : find_partner s1 used l = none) (hused : used = []) :
    ∀ s2 ∈ l, union s1 s2 = none := by
  subst hused
  induction l with
  | nil => simp
  | cons s2 tl ih =>
    simp only [find_partner] at h
    have hm : smem [] s2 = false := rfl
    rw [hm] at h
    simp only [Bool.false_eq_true, if_false] at h
    intro x hx
    cases hu : union s1 s2 with
    | some s3 => rw [hu] at h; exact absurd h (by simp)
    | none =>
      rw [hu] at h
      rcases List.mem_cons.mp hx with rfl | hx
      · exact hu
      · exact ih h x hx

theorem union_pass_aux_length_le (l : List Segment) :
    ∀ used, (union_pass_aux used l).1.length ≤ l.length := by
  induction l with
  | nil => intro used; simp [union_pass_aux]
  | cons s1 rest ih =>
    intro used
    simp only [union_pass_aux]
    cases hfp : find_partner s1 used rest with
    | some pr =>
      dsimp only
      exact Nat.succ_le_succ (ih _)
    | none =>
      dsimp only
      split_ifs
      · exact Nat.le_succ_of_le (ih _)
      · exact Nat.succ_le_succ (ih _)

theorem union_pass_aux_length_lt_of_smem (l : List Segment) :
    ∀ used, (∃ s ∈ l, smem used s = true) →
      (union_pass_aux used l).1.length < l.length := by
  induction l with
  | nil =>
    intro used hx
    obtain ⟨s, hs, _⟩ := hx
    exact absurd hs (List.not_mem_nil s)
  | cons s1 rest ih =>
    intro used hx
    simp only [union_pass_aux]
    cases hfp : find_partner s1 used rest with
    | some pr =>
      dsimp only
      apply Nat.succ_lt_succ
      apply ih
      exact ⟨pr.2, (find_partner_some hfp).1, smem_append_pair used s1 pr.2⟩
    | none =>
      dsimp only
      obtain ⟨s, hs, hsm⟩ := hx
      rcases List.mem_cons.mp hs with rfl | hs
      · rw [if_pos hsm]
        exact Nat.lt_succ_of_le (union_pass_aux_length_le rest used)
      · have hlt := ih used ⟨s, hs, hsm⟩
        split_ifs
        · exact Nat.lt_succ_of_lt hlt
        · exact Nat.succ_lt_succ hlt

theorem union_pass_aux_length_lt_of_flag (l : List Segment) :
    ∀ used, (union_pass_aux used l).2 = true →
      (union_pass_aux used l).1.length < l.length := by
  induction l with
  | nil => intro used hf; simp [union_pass_aux] at hf
  | cons s1 rest ih =>
    intro used hf
    simp only [union_pass_aux] at hf ⊢
    cases hfp : find_partner s1 used rest with
    | some pr =>
      dsimp only
      apply Nat.succ_lt_succ
      apply union_pass_aux_length_lt_of_smem
      exact ⟨pr.2, (find_partner_some hfp).1, smem_append_pair used s1 pr.2⟩
    | none =>
      rw [hfp] at hf
      dsimp only at hf ⊢
      have hlt := ih used hf
      split_ifs
      · exact Nat.lt_succ_of_lt hlt
      · exact Nat.succ_lt_succ hlt

theorem union_pass_aux_nil_false (l : List Segment) :
    ∀ out, union_pass_aux [] l = (out, false) →
      out = l ∧ List.Pairwise (fun a b => union a b = none) l := by
  induction l with
  | nil =>
    intro out h
    simp only [union_pass_aux, Prod.mk.injEq] at h
    exact ⟨h.1.symm, List.Pairwise.nil⟩
  | cons s1 rest ih =>
    intro out h
    simp only [union_pass_aux] at h
    cases hfp : find_partner s1 [] rest with
    | some pr =>
      rw [hfp] at h
      dsimp only at h
      exact absurd (congrArg Prod.snd h) (by simp)
    | none =>
      rw [hfp] at h
      have hm : smem [] s1 = false := rfl
      rw [hm] at h
      simp only [Bool.false_eq_true, if_false, Prod.mk.injEq] at h
      obtain ⟨hout, hflag⟩ := h
      have hrec : union_pass_aux [] rest = ((union_pass_aux [] rest).1, false) := by
        rw [← hflag]
      obtain ⟨heq, hpw⟩ := ih _ hrec
      refine ⟨?_, ?_⟩
      · rw [← hout, heq]
      · exact List.Pairwise.cons (find_partner_none hfp rfl) hpw

theorem union_all_fuel_fixed (fuel : ℕ) :
    ∀ l : List Segment, l.length < fuel →
      union_pass (union_all_fuel fuel l) = (union_all_fuel fuel l, false) := by
  induction fuel with
  | zero => intro l h; omega
  | succ f ih =>
    intro l h
    simp only [union_all_fuel]
    cases hp : union_pass l with
    | mk out flag =>
      cases flag with
      | true =>
        dsimp only
        apply ih
        have h2 := union_pass_aux_length_lt_of_flag l []
          (by rw [show union_pass_aux [] l = (out, true) from hp]) 
        rw [show union_pass_aux [] l = (out, true) from hp] at h2
        dsimp only at h2
        omega
      | false =>
        dsimp only
        obtain ⟨heq, _⟩ := union_pass_aux_nil_false l out hp
        rw [heq] at hp ⊢
        exact hp

/-- C9: `union_all` reaches the fixed point of its merging pass within the
available iterations — one further pass over the result reports no merge
and leaves it unchanged — and at that point no segment of the result has a
defined union with any later segment of the result (the ordered pairs the
pass examines). -/
theorem union_all_terminates_at_fixed_point (l : List Segment) :
    union_pass (union_all l) = (union_all l, false) ∧
    List.Pairwise (fun a b => union a b = none) (union_all l) := by
  have h := union_all_fuel_fixed (l.length + 1) l (Nat.lt_succ_self _)
  exact ⟨h, (union_pass_aux_nil_false _ _ h).2⟩

end Segment


/-! ## Claim C3: ordering fixed point -/

theorem insertIdx_perm {α : Type} (x : α) :
    ∀ (n : ℕ) (l : List α), n ≤ l.length → (l.insertIdx n x).Perm (x :: l)
  | 0, l, _ => by rw [List.insertIdx_zero]
  | n + 1, [], h => absurd h (by simp)
  | n + 1, b :: bs, h => by
    rw [List.insertIdx_succ_cons]
    exact (List.Perm.cons b (insertIdx_perm x n bs (by simpa using h))).trans
      (List.Perm.swap x b bs)

theorem pyinsert_perm {α : Type} (n : ℕ) (x : α) (l : List α) :
    (pyinsert n x l).Perm (x :: l) := by
  unfold pyinsert
  split_ifs with h
  · exact insertIdx_perm x n l h
  · exact List.perm_append_singleton x l

theorem getD_cons_eraseIdx_perm {α : Type} (d : α) :
    ∀ (pos : ℕ) (l : List α), pos < l.length →
      (l.getD pos d :: l.eraseIdx pos).Perm l
  | _, [], h => absurd h (by simp)
  | 0, a :: as, _ => by simp
  | pos + 1, a :: as, h => by
    have hrec := getD_cons_eraseIdx_perm d pos as (by simpa using h)
    simp only [List.getD_cons_succ, List.eraseIdx_cons_succ]
    exact (List.Perm.swap a _ _).trans (List.Perm.cons a hrec)

theorem scan_move_some_shape (bboxes : List BBox) (dir : ReadingDirection)
    (ind ind' : List ℕ) (h : scan_move bboxes dir ind = some ind') :
    ∃ pos, pos < ind.length ∧ ∃ nb,
      ind' = pyinsert (ind.indexOf nb) (ind.getD pos 0) (ind.eraseIdx pos) := by
  unfold scan_move at h
  obtain ⟨pos, hpos, h2⟩ := List.exists_of_findSome?_eq_some h
  obtain ⟨nb, hnb, h3⟩ := List.exists_of_findSome?_eq_some h2
  refine ⟨pos, List.mem_range.mp hpos, nb, ?_⟩
  by_cases hlt : pos < ind.indexOf nb
  · rw [if_pos hlt] at h3
    injection h3 with h3
    exact h3.symm
  · rw [if_neg hlt] at h3
    exact absurd h3 (by simp)

theorem scan_move_perm (bboxes : List BBox) (dir : ReadingDirection)
    (ind ind' : List ℕ) (h : scan_move bboxes dir ind = some ind') :
    ind'.Perm ind := by
  obtain ⟨pos, hpos, nb, rfl⟩ := scan_move_some_shape bboxes dir ind ind' h
  exact (pyinsert_perm _ _ _).trans (getD_cons_eraseIdx_perm 0 pos ind hpos)

theorem repair_loop_perm (bboxes : List BBox) (dir : ReadingDirection) :
    ∀ (fuel : ℕ) (ind : List ℕ), (repair_loop bboxes dir fuel ind).Perm ind := by
  intro fuel
  induction fuel with
  | zero => intro ind; exact List.Perm.refl _
  | succ f ih =>
    intro ind
    simp only [repair_loop]
    cases hs : scan_move bboxes dir ind with
    | none => exact List.Perm.refl _
    | some ind' =>
      exact (ih ind').trans (scan_move_perm bboxes dir ind ind' hs)

theorem order_panels_perm (bboxes : List BBox) (dir : ReadingDirection) :
    (order_panels bboxes dir).Perm (List.range bboxes.length) := by
  unfold order_panels
  cases bboxes with
  | nil => simp
  | cons b bs =>
    cases bs with
    | nil =>
      show ([0] : List ℕ).Perm (List.range 1)
      decide
    | cons c cs =>
      exact (repair_loop_perm _ _ _ _).trans (List.perm_insertionSort _ _)

theorem foldl_pick_mem (c : ℕ × ℤ) (rest : List (ℕ × ℤ)) :
    (rest.foldl (fun best cand => if cand.2 > best.2 then cand else best) c)
      ∈ c :: rest := by
  induction rest generalizing c with
  | nil => simp
  | cons d ds ih =>
    simp only [List.foldl_cons]
    rcases List.mem_cons.mp (ih (if d.2 > c.2 then d else c)) with he | he
    · rw [he]
      split_ifs
      · exact List.mem_cons_of_mem _ (List.mem_cons_self _ _)
      · exact List.mem_cons_self _ _
    · exact List.mem_cons_of_mem _ (List.mem_cons_of_mem _ he)

theorem top_candidates_mem (idx : ℕ) (bboxes : List BBox) (pr : ℕ × ℤ)
    (h : pr ∈ top_candidates idx bboxes) :
    pr.1 < bboxes.length ∧ pr.1 ≠ idx := by
  unfold top_candidates at h
  obtain ⟨jp, hjp, hsome⟩ := List.mem_filterMap.mp h
  obtain ⟨hlt, _⟩ := List.mem_enum hjp
  by_cases hid : jp.1 = idx
  · rw [if_pos hid] at hsome
    exact absurd hsome (by simp)
  · rw [if_neg hid] at hsome
    split_ifs at hsome with hcond
    injection hsome with hsome
    rw [← hsome]
    exact ⟨hlt, hid⟩

theorem must_precede_mem (bboxes : List BBox) (dir : ReadingDirection)
    (idx nb : ℕ) (h : nb ∈ must_precede bboxes dir idx) :
    nb < bboxes.length ∧ nb ≠ idx := by
  unfold must_precede at h
  rcases List.mem_append.mp h with h | h
  · cases htop : find_top_panel idx bboxes with
    | none => rw [htop] at h; simp at h
    | some m =>
      rw [htop] at h
      simp only [Option.toList_some, List.mem_singleton] at h
      subst h
      unfold find_top_panel at htop
      cases hc : top_candidates idx bboxes with
      | nil => rw [hc] at htop; exact absurd htop (by simp)
      | cons c rest =>
        rw [hc] at htop
        have hmem := foldl_pick_mem c rest
        rw [← hc] at hmem
        injection htop with htop
        rw [← htop]
        exact top_candidates_mem idx bboxes _ hmem
  · have hgen : ∀ l : List BBox, ∀ cond : BBox → BBox → Bool,
        nb ∈ l.enum.filterMap (fun jp =>
          if jp.1 = idx then none
          else if cond (l.getD idx (0, 0, 0, 0)) jp.2 then some jp.1
          else none) → nb < l.length ∧ nb ≠ idx := by
      intro l cond hmem
      obtain ⟨jp, hjp, hsome⟩ := List.mem_filterMap.mp hmem
      obtain ⟨hlt, _⟩ := List.mem_enum hjp
      by_cases hid : jp.1 = idx
      · rw [if_pos hid] at hsome
        exact absurd hsome (by simp)
      · rw [if_neg hid] at hsome
        split_ifs at hsome with hcond
        injection hsome with hsome
        rw [← hsome]
        exact ⟨hlt, hid⟩
    cases dir with
    | rtl =>
      simp only at h
      unfold find_all_right_panels at h
      exact hgen bboxes (fun bb other => bbx other ≥ bbr bb && same_row bb other) h
    | ltr =>
      simp only at h
      unfold find_all_left_panels at h
      exact hgen bboxes (fun bb other => bbr other ≤ bbx bb && same_row bb other) h

theorem scan_move_none_spec (bboxes : List BBox) (dir : ReadingDirection)
    (ind : List ℕ) (h : scan_move bboxes dir ind = none) :
    ∀ pos ∈ List.range ind.length,
      ∀ nb ∈ must_precede bboxes dir (ind.getD pos 0),
        ind.indexOf nb ≤ pos := by
  unfold scan_move at h
  rw [List.findSome?_eq_none_iff] at h
  intro pos hpos nb hnb
  have h2 := h pos hpos
  rw [List.findSome?_eq_none_iff] at h2
  have h3 := h2 nb hnb
  by_contra hgt
  push_neg at hgt
  rw [if_pos hgt] at h3
  exact absurd h3 (by simp)

/-- C3 counterexample: for two coincident zero-size boxes each panel is a
must-precede predecessor of the other, the repair loop ping-pongs to its
n-squared iteration bound, and the returned order still violates the
precedence property (panel 0 precedes its predecessor 1's position). -/
theorem order_panels_bound_hit_counterexample :
    order_panels [((0 : ℤ), (0 : ℤ), (0 : ℤ), (0 : ℤ)), (0, 0, 0, 0)]
      ReadingDirection.ltr = [0, 1] ∧
    (1 : ℕ) ∈ must_precede [((0 : ℤ), (0 : ℤ), (0 : ℤ), (0 : ℤ)), (0, 0, 0, 0)]
      ReadingDirection.ltr 0 ∧
    respects_precedence [((0 : ℤ), (0 : ℤ), (0 : ℤ), (0 : ℤ)), (0, 0, 0, 0)]
      ReadingDirection.ltr
      (order_panels [((0 : ℤ), (0 : ℤ), (0 : ℤ), (0 : ℤ)), (0, 0, 0, 0)]
        ReadingDirection.ltr) = false :=
  ⟨by decide, by decide, by decide⟩

/-- C3 (amended): `order_panels` always returns a permutation of the
indices, and whenever the repair loop exits at a fixed point (a further
scan over the returned order finds no violation) every panel is placed
after all of its must-precede predecessors.  With degenerate boxes the
must-precede relation can be cyclic and the n-squared bound is hit with a
violation remaining. -/
theorem order_panels_fixed_point (bboxes : List BBox) (dir : ReadingDirection)
    (h : scan_move bboxes dir (order_panels bboxes dir) = none) :
    (order_panels bboxes dir).Perm (List.range bboxes.length) ∧
    respects_precedence bboxes dir (order_panels bboxes dir) = true := by
  have hperm := order_panels_perm bboxes dir
  refine ⟨hperm, ?_⟩
  have hnodup : (order_panels bboxes dir).Nodup :=
    hperm.nodup_iff.mpr (List.nodup_range _)
  have hspec := scan_move_none_spec bboxes dir _ h
  unfold respects_precedence
  rw [List.all_eq_true]
  intro pos hpos
  rw [List.all_eq_true]
  intro nb hnb
  have hposlt : pos < (order_panels bboxes dir).length := List.mem_range.mp hpos
  have hle := hspec pos hpos nb hnb
  obtain ⟨hnblt, hnbne⟩ := must_precede_mem bboxes dir _ nb hnb
  have hnbmem : nb ∈ order_panels bboxes dir :=
    hperm.mem_iff.mpr (List.mem_range.mpr hnblt)
  rw [decide_eq_true_eq]
  rcases Nat.lt_or_ge ((order_panels bboxes dir).indexOf nb) pos with hlt | hge
  · exact hlt
  · exfalso
    have heq : (order_panels bboxes dir).indexOf nb = pos := le_antisymm hle hge
    subst heq
    have hgd : (order_panels bboxes dir).getD
        ((order_panels bboxes dir).indexOf nb) 0 = nb := by
      rw [List.getD_eq_getElem _ _ hposlt]
      exact List.getElem_indexOf hposlt
    exact hnbne hgd.symm


/-- Witness for `order_panels_fixed_point` at the two-bbox scenario, whose
repair loop does reach the fixed point. -/
theorem order_panels_fixed_point_witness :
    scan_move [((300 : ℤ), (100 : ℤ), (200 : ℤ), (200 : ℤ)), (50, 100, 200, 200)]
      ReadingDirection.ltr
      (order_panels [((300 : ℤ), (100 : ℤ), (200 : ℤ), (200 : ℤ)), (50, 100, 200, 200)]
        ReadingDirection.ltr) = none ∧
    ((order_panels [((300 : ℤ), (100 : ℤ), (200 : ℤ), (200 : ℤ)), (50, 100, 200, 200)]
        ReadingDirection.ltr).Perm
      (List.range ([((300 : ℤ), (100 : ℤ), (200 : ℤ), (200 : ℤ)), (50, 100, 200, 200)] :
        List BBox).length) ∧
     respects_precedence
       [((300 : ℤ), (100 : ℤ), (200 : ℤ), (200 : ℤ)), (50, 100, 200, 200)]
       ReadingDirection.ltr
       (order_panels [((300 : ℤ), (100 : ℤ), (200 : ℤ), (200 : ℤ)), (50, 100, 200, 200)]
         ReadingDirection.ltr) = true) :=
  ⟨by decide, order_panels_fixed_point _ _ (by decide)⟩

/-! ## Claim C6: the gutter-variance page factor -/

/-- With at least two positive gutter samples the sample mean is positive
(so the zero-mean branch of the scorer is dead code). -/
theorem list_mean_pos_of_two (gx gy : List ℤ)
    (hlen : 2 ≤ (pos_gutters gx gy).length) :
    0 < list_mean (pos_gutters gx gy) := by
  have hne : pos_gutters gx gy ≠ [] := by
    intro hnil
    rw [hnil] at hlen
    simp at hlen
  have hsum : 0 < (pos_gutters gx gy).sum := by
    apply List.sum_pos
    · intro x hx
      have := List.of_mem_filter hx
      simpa using this
    · exact hne
  unfold list_mean
  apply div_pos
  · exact_mod_cast hsum
  · have : 0 < (pos_gutters gx gy).length := List.length_pos.mpr hne
    exact_mod_cast this

/-- C6 counterexample: for the positive gutters [10, 20] the coefficient of
variation is √50/15 ≈ 0.4714, inside [0.3, 0.6), yet the factor is the ramp
value 0.7 + 0.3·(0.6 - cv)/0.3 ≈ 0.829, not the flat 0.7 the claim
states. -/
theorem gutter_variance_midband_counterexample :
    (3 : ℝ) / 10 ≤ gutter_cv (pos_gutters [10, 20] []) ∧
    gutter_cv (pos_gutters [10, 20] []) < 6 / 10 ∧
    compute_gutter_variance_score [10, 20] [] ≠ 7 / 10 := by
  have hfil : pos_gutters [10, 20] [] = [10, 20] := by decide
  have hmean : list_mean [10, 20] = 15 := by
    unfold list_mean
    norm_num [List.sum_cons, List.sum_nil]
  have hsd : sample_stdev [10, 20] = Real.sqrt 50 := by
    unfold sample_stdev
    rw [hmean]
    norm_num [List.map_cons, List.map_nil, List.sum_cons, List.sum_nil]
  have hcv : gutter_cv (pos_gutters [10, 20] []) = Real.sqrt 50 / 15 := by
    rw [hfil]
    unfold gutter_cv
    rw [hmean, hsd]
  have hs50 : (4.5 : ℝ) ≤ Real.sqrt 50 := by
    rw [Real.le_sqrt (by norm_num) (by norm_num)]
    norm_num
  have hs50u : Real.sqrt 50 < 9 := by
    rw [Real.sqrt_lt' (by norm_num)]
    norm_num
  have hcv_lo : (3 : ℝ) / 10 ≤ Real.sqrt 50 / 15 := by
    rw [div_le_div_iff₀ (by norm_num) (by norm_num)]
    nlinarith
  have hcv_hi : Real.sqrt 50 / 15 < 6 / 10 := by
    rw [div_lt_div_iff₀ (by norm_num) (by norm_num)]
    nlinarith
  have hne9 : Real.sqrt 50 ≠ 9 := by
    intro h9
    have hsq : (Real.sqrt 50) ^ 2 = 50 := Real.sq_sqrt (by norm_num)
    rw [h9] at hsq
    norm_num at hsq
  refine ⟨by rw [hcv]; exact hcv_lo, by rw [hcv]; exact hcv_hi, ?_⟩
  unfold compute_gutter_variance_score
  rw [if_neg (by norm_num), if_neg (by rw [hfil]; norm_num),
    if_neg (by rw [hfil, hmean]; norm_num),
    if_neg (by rw [hcv]; push_neg; exact le_trans (by norm_num) hcv_lo),
    if_pos (by rw [hcv]; calc Real.sqrt 50 / 15 < 6 / 10 := hcv_hi
      _ = (0.6 : ℝ) := by norm_num)]
  rw [hcv]
  intro heq
  apply hne9
  have h06 : Real.sqrt 50 / 15 = 0.6 := by
    have h03 : (0.3 : ℝ) ≠ 0 := by norm_num
    field_simp at heq
    linarith
  have : Real.sqrt 50 = 0.6 * 15 := by
    field_simp at h06
    linarith
  rw [this]
  norm_num


/-- C6 (amended): the factor equals the spec's description with the mid
branch corrected to the code's linear ramp, and with the dead zero-mean
branch eliminated. -/
theorem gutter_variance_score_eq_spec (gx gy : List ℤ) :
    compute_gutter_variance_score gx gy = gutter_variance_spec_amended gx gy := by
  unfold compute_gutter_variance_score gutter_variance_spec_amended
  by_cases h1 : (gx ++ gy).length < 2
  · rw [if_pos h1, if_pos h1]
  · rw [if_neg h1, if_neg h1]
    by_cases h2 : (pos_gutters gx gy).length < 2
    · rw [if_pos h2, if_pos h2]
    · rw [if_neg h2, if_neg h2]
      have hm : list_mean (pos_gutters gx gy) ≠ 0 :=
        ne_of_gt (list_mean_pos_of_two gx gy (by omega))
      rw [if_neg hm]


end Panelizer
